import Mathlib

/-!
Verification model of the website-archiving engine of gonoteflow
(internal/services/notemanager.go).  Strings are modelled as lists of
characters; the Go regular expressions used by the engine are modelled as
deterministic scanners implementing their leftmost, non-overlapping match
semantics; the network and clock are oracle parameters.
-/

/-- Strings as lists of characters. -/
abbrev Str := List Char

/-- Convert a Lean string literal to the list-of-characters representation. -/
def str (s : String) : Str := s.data

/-- The apostrophe character (U+0027). -/
def squote : Char := Char.ofNat 39

/-- Go regexp's space class in the default (Perl) mode: [\t\n\f\r ]. -/
def isGoSpace (c : Char) : Bool :=
  c = ' ' || c = '\t' || c = '\n' || c = '\x0c' || c = '\r'

/-- A single or double quote character, as matched by the character class in
patterns such as src=["']([^"']+)["'] in notemanager.go. -/
def isQuote (c : Char) : Bool := c = '"' || c = squote

/-- Does sub occur as a contiguous substring of s (strings.Contains)? -/
def containsSub (s sub : Str) : Bool :=
  match s with
  | [] => sub.isEmpty
  | _ :: cs => sub.isPrefixOf s || containsSub cs sub

/-- strings.Replace(s, old, new, 1): replace the first occurrence of old. -/
def replaceFirst (s old new : Str) : Str :=
  match s with
  | [] => []
  | c :: cs =>
    if old.isPrefixOf (c :: cs) then new ++ (c :: cs).drop old.length
    else c :: replaceFirst cs old new

/-- strings.TrimPrefix(m, "+"). -/
def trimPlus (m : Str) : Str := if (str "+").isPrefixOf m then m.drop 1 else m

/-- strings.TrimSpace, restricted to the ASCII whitespace that occurs in the
documents modelled here. -/
def trimSpace (s : Str) : Str :=
  ((s.dropWhile isGoSpace).reverse.dropWhile isGoSpace).reverse

/-- strings.Trim(s, "_"): drop leading and trailing underscores. -/
def trimUnderscores (s : Str) : Str :=
  ((s.dropWhile (· = '_')).reverse.dropWhile (· = '_')).reverse

/-- strings.ToLower for the ASCII strings handled here. -/
def toLowerStr (s : Str) : Str := s.map Char.toLower

/-!
Generic regexp-replacement machinery.  A pattern is a function
pat : Str → Option Nat giving the length of the match starting at the head of
the input (none when no match starts there).  replaceAllF implements
regexp.ReplaceAllStringFunc: scan left to right, replace each leftmost
non-overlapping match by the callback's value, continue after the match.
The Nat fuel is an upper bound on the number of scan steps (the string
length), which makes the recursion structural.
-/

def replaceAllAux (pat : Str → Option Nat) (f : Str → Str) : Nat → Str → Str
  | _, [] => []
  | 0, s => s
  | fuel + 1, c :: cs =>
    match pat (c :: cs) with
    | some n =>
      if 0 < n then f ((c :: cs).take n) ++ replaceAllAux pat f fuel ((c :: cs).drop n)
      else c :: replaceAllAux pat f fuel cs
    | none => c :: replaceAllAux pat f fuel cs

/-- regexp.ReplaceAllStringFunc(pat, f) on s. -/
def replaceAllF (pat : Str → Option Nat) (f : Str → Str) (s : Str) : Str :=
  replaceAllAux pat f s.length s

def matchesOfAux (pat : Str → Option Nat) : Nat → Str → List Str
  | _, [] => []
  | 0, _ => []
  | fuel + 1, c :: cs =>
    match pat (c :: cs) with
    | some n =>
      if 0 < n then (c :: cs).take n :: matchesOfAux pat fuel ((c :: cs).drop n)
      else matchesOfAux pat fuel cs
    | none => matchesOfAux pat fuel cs

/-- regexp.FindAllString(s, -1): the leftmost non-overlapping matches of pat. -/
def matchesOf (pat : Str → Option Nat) (s : Str) : List Str :=
  matchesOfAux pat s.length s

/-- First match (with its capture group) of a submatch pattern anywhere in s:
regexp.FindStringSubmatch.  mat returns (match length, capture group) for a
match starting at the head of its argument. -/
def scanFirst (mat : Str → Option (Nat × Str)) : Str → Option (Nat × Str)
  | [] => none
  | c :: cs =>
    match mat (c :: cs) with
    | some r => some r
    | none => scanFirst mat cs

/-!  Scanners for the individual regular expressions of notemanager.go. -/

/-- ["']([^"']+)["'] at the head: a quote, one or more non-quote characters,
a quote (the two quotes need not be equal, exactly as in the regexp).
Returns (total length, captured value). -/
def quoteValMat (s : Str) : Option (Nat × Str) :=
  match s with
  | q :: rest =>
    if isQuote q then
      let v := rest.takeWhile (fun c => !isQuote c)
      if v.length = 0 then none
      else
        match rest.drop v.length with
        | q2 :: _ => if isQuote q2 then some (1 + v.length + 1, v) else none
        | [] => none
    else none
  | [] => none

/-- src=["']([^"']+)["'] at the head (srcRe). -/
def srcMat (s : Str) : Option (Nat × Str) :=
  if (str "src=").isPrefixOf s then
    (quoteValMat (s.drop 4)).map (fun r => (4 + r.1, r.2))
  else none

/-- href=["']([^"']+)["'] at the head (hrefRe). -/
def hrefMat (s : Str) : Option (Nat × Str) :=
  if (str "href=").isPrefixOf s then
    (quoteValMat (s.drop 5)).map (fun r => (5 + r.1, r.2))
  else none

/-- rel=["']stylesheet["'] at the head. -/
def relStylesheetMat (s : Str) : Option (Nat × Str) :=
  if (str "rel=").isPrefixOf s then
    match s.drop 4 with
    | q :: rest =>
      if isQuote q && (str "stylesheet").isPrefixOf rest then
        match rest.drop 10 with
        | q2 :: _ => if isQuote q2 then some (16, str "stylesheet") else none
        | [] => none
      else none
    | [] => none
  else none

/-- Positions of '>' characters in s: candidate tag ends. -/
def closeCandidates (s : Str) : List Nat :=
  (List.range s.length).filter (fun j => s.getD j ' ' = '>')

/-- srcRe.FindStringSubmatch(m): first src attribute value in m. -/
def srcFind (m : Str) : Option Str := (scanFirst srcMat m).map (fun r => r.2)

/-- hrefRe.FindStringSubmatch(m): first href attribute value in m. -/
def hrefFind (m : Str) : Option Str := (scanFirst hrefMat m).map (fun r => r.2)

/-- srcRe as a replacement pattern (for srcRe.ReplaceAllString). -/
def srcTry (s : Str) : Option Nat := (srcMat s).map (fun r => r.1)

/-- linkRe: a <link ...> tag that carries both an href=["']...["'] attribute
and rel=["']stylesheet["'] (in either order, matching the two-branch
alternation in the source).  The match ends at the first '>' by which both
attributes have been seen. -/
def linkTry (s : Str) : Option Nat :=
  if (str "<link").isPrefixOf s then
    Option.map (fun j => j + 1)
      ((closeCandidates s).find? (fun j =>
        (scanFirst hrefMat (s.take j)).isSome &&
        (scanFirst relStylesheetMat (s.take j)).isSome))
  else none

/-- scriptRe: <script[^>]*src=["']([^"']+)["'][^>]*></script>. -/
def scriptTry (s : Str) : Option Nat :=
  if (str "<script").isPrefixOf s then
    Option.map (fun j => j + 1 + 9)
      ((closeCandidates s).find? (fun j =>
        (scanFirst srcMat (s.take j)).isSome &&
        (str "</script>").isPrefixOf (s.drop (j + 1))))
  else none

/-- imgRe: <img[^>]*src=["']([^"']+)["'][^>]*>. -/
def imgTry (s : Str) : Option Nat :=
  if (str "<img").isPrefixOf s then
    Option.map (fun j => j + 1)
      ((closeCandidates s).find? (fun j => (scanFirst srcMat (s.take j)).isSome))
  else none

/-- bodyRe: (<body[^>]*>): from <body to the first following '>'. -/
def bodyTry (s : Str) : Option Nat :=
  if (str "<body").isPrefixOf s then
    Option.map (fun j => j + 1) (closeCandidates s).head?
  else none

/-- The image extensions of jsImgRe: \.(?:png|jpg|jpeg|gif|svg|webp). -/
def jsImgExts : List Str :=
  [str ".png", str ".jpg", str ".jpeg", str ".gif", str ".svg", str ".webp"]

def endsWithImageExt (v : Str) : Bool := jsImgExts.any (fun e => e.isSuffixOf v)

/-- jsImgRe: ['"]([^'"]*\.(?:png|jpg|jpeg|gif|svg|webp))['"]: a quoted string
(closing quote is the first quote after the opening one) whose content ends
in an image extension. -/
def jsImgTry (s : Str) : Option Nat :=
  match s with
  | q :: rest =>
    if isQuote q then
      let v := rest.takeWhile (fun c => !isQuote c)
      if v.length < rest.length && endsWithImageExt v then some (1 + v.length + 1)
      else none
    else none
  | [] => none

/-- url\(["']?([^"')\s]+)["']?\) at the head (urlRe): literal url(, optional
quote, one or more characters outside ["'), whitespace], optional quote,
then ')'.  Returns (length, captured target). -/
def urlMat (s : Str) : Option (Nat × Str) :=
  if (str "url(").isPrefixOf s then
    let rest := s.drop 4
    let q : Nat := match rest with
      | c :: _ => if isQuote c then 1 else 0
      | [] => 0
    let rest2 := rest.drop q
    let v := rest2.takeWhile (fun c => !(isQuote c || c = ')' || isGoSpace c))
    if v.length = 0 then none
    else
      let rest3 := rest2.drop v.length
      let q2 : Nat := match rest3 with
        | c :: _ => if isQuote c then 1 else 0
        | [] => 0
      match rest3.drop q2 with
      | ')' :: _ => some (4 + q + v.length + q2 + 1, v)
      | _ => none
  else none

def urlTry (s : Str) : Option Nat := (urlMat s).map (fun r => r.1)

/-- urlRe.FindStringSubmatch(m): first url() target in m. -/
def urlMatGroup (m : Str) : Option Str := (scanFirst urlMat m).map (fun r => r.2)

/-- importRe: @import\s+(?:url\()?["']([^"']+)["'](?:\))?[^;]*; -/
def importMat (s : Str) : Option (Nat × Str) :=
  if (str "@import").isPrefixOf s then
    let r1 := s.drop 7
    let ws := r1.takeWhile isGoSpace
    if ws.length = 0 then none
    else
      let r2 := r1.drop ws.length
      let u : Nat := if (str "url(").isPrefixOf r2 then 4 else 0
      let r3 := r2.drop u
      match quoteValMat r3 with
      | none => none
      | some (qv, g) =>
        let r4 := r3.drop qv
        let p : Nat := match r4 with
          | ')' :: _ => 1
          | _ => 0
        let r5 := r4.drop p
        let tailChars := r5.takeWhile (· ≠ ';')
        if tailChars.length < r5.length then
          some (7 + ws.length + u + qv + p + tailChars.length + 1, g)
        else none
  else none

def importTry (s : Str) : Option Nat := (importMat s).map (fun r => r.1)

/-- importRe.FindStringSubmatch(m): the quoted import target in m. -/
def importGroup (m : Str) : Option Str := (scanFirst importMat m).map (fun r => r.2)

/-- styleRe: style=["']([^"']*url\([^)]+\)[^"']*)["'].  After the opening
quote: a quote-free segment, the literal url(, one or more non-')'
characters (quotes are allowed here, since the class is [^)]+), the ')',
a quote-free segment, and the closing quote.  The url( argument and the
')' are therefore the maximal non-')' run after the chosen url( and the
first ')' following it, and the closing quote is the first quote after
that ')'; the greedy leading [^"']* prefers the last url( inside the
initial quote-free region that admits a full match. -/
def styleMat (s : Str) : Option (Nat × Str) :=
  if (str "style=").isPrefixOf s then
    match s.drop 6 with
    | q :: rest =>
      if isQuote q then
        let fq := (rest.takeWhile (fun c => !isQuote c)).length
        match ((List.range (fq + 1)).reverse.filterMap (fun p =>
          if (str "url(").isPrefixOf (rest.drop p) then
            let afterU := rest.drop (p + 4)
            let run := afterU.takeWhile (· ≠ ')')
            if 0 < run.length && run.length < afterU.length then
              let afterP := afterU.drop (run.length + 1)
              let dq := afterP.takeWhile (fun c => !isQuote c)
              if dq.length < afterP.length then
                some (p + 4 + run.length + 1 + dq.length)
              else none
            else none
          else none)).head? with
        | some contentLen => some (6 + 1 + contentLen + 1, rest.take contentLen)
        | none => none
      else none
    | [] => none
  else none

def styleTry (s : Str) : Option Nat := (styleMat s).map (fun r => r.1)

/-- titleRe: <title[^>]*>([^<]*)</title>. -/
def titleMat (s : Str) : Option (Nat × Str) :=
  if (str "<title").isPrefixOf s then
    let r1 := s.drop 6
    let w := r1.takeWhile (· ≠ '>')
    if w.length = r1.length then none
    else
      let r2 := r1.drop (w.length + 1)
      let g := r2.takeWhile (· ≠ '<')
      if (str "</title>").isPrefixOf (r2.drop g.length) then
        some (6 + w.length + 1 + g.length + 8, g)
      else none
  else none

/-- The archive-trigger token pattern \+https?://[^\s\)]+ . -/
def tokenTry (s : Str) : Option Nat :=
  match s with
  | '+' :: rest =>
    let k : Option Nat :=
      if (str "https://").isPrefixOf rest then some 8
      else if (str "http://").isPrefixOf rest then some 7
      else none
    match k with
    | none => none
    | some k =>
      let run := (rest.drop k).takeWhile (fun c => !(isGoSpace c || c = ')'))
      if run.length = 0 then none else some (1 + k + run.length)
  | _ => none

/-- The character class of sanitizeFilename's regexp [<>:"/\\|?*\s]. -/
def isInvalidFilenameChar (c : Char) : Bool :=
  c = '<' || c = '>' || c = ':' || c = '"' || c = '/' || c = '\\' ||
  c = '|' || c = '?' || c = '*' || isGoSpace c

/-- [<>:"/\\|?*\s]+ at the head: a maximal run of invalid characters. -/
def invalidRunTry (s : Str) : Option Nat :=
  match s with
  | c :: _ =>
    if isInvalidFilenameChar c then some ((s.takeWhile isInvalidFilenameChar).length)
    else none
  | [] => none

/-!
Models of the Go standard-library functionality the engine calls
(net/url, path.Ext, mime.TypeByExtension, base64, net/http).
-/

/-- Model of net/url's URL for the absolute http(s) URLs the engine works
with: scheme, host, and the remainder (path). -/
structure GoURL where
  scheme : Str
  host : Str
  path : Str
deriving DecidableEq

/-- url.URL.String() for the URLs modelled here. -/
def urlToString (u : GoURL) : Str := u.scheme ++ str "://" ++ u.host ++ u.path

/-- Model of url.Parse on a full URL string: fails on embedded spaces,
splits absolute http(s) URLs into scheme/host/path, and treats anything
else as a host-less relative URL, as the Go parser does. -/
def urlParseAbs (s : Str) : Option GoURL :=
  if s.any (· = ' ') then none
  else if (str "http://").isPrefixOf s then
    let r := s.drop 7
    let h := r.takeWhile (· ≠ '/')
    some ⟨str "http", h, r.drop h.length⟩
  else if (str "https://").isPrefixOf s then
    let r := s.drop 8
    let h := r.takeWhile (· ≠ '/')
    some ⟨str "https", h, r.drop h.length⟩
  else some ⟨[], [], s⟩

/-- The base path up to and including its last '/' (RFC 3986 merge step). -/
def dirPath (p : Str) : Str := (p.reverse.dropWhile (· ≠ '/')).reverse

/-- Model of base.Parse(target): reference resolution against an absolute
base for the reference forms the engine meets (absolute http(s),
protocol-relative, path-absolute, path-relative). -/
def urlResolve (base : GoURL) (target : Str) : Option GoURL :=
  if target.any (· = ' ') then none
  else if (str "http://").isPrefixOf target || (str "https://").isPrefixOf target then
    urlParseAbs target
  else if (str "//").isPrefixOf target then
    let r := target.drop 2
    let h := r.takeWhile (· ≠ '/')
    some ⟨base.scheme, h, r.drop h.length⟩
  else if (str "/").isPrefixOf target then some ⟨base.scheme, base.host, target⟩
  else if target = [] then some base
  else
    let d := dirPath base.path
    some ⟨base.scheme, base.host, (if d = [] then str "/" else d) ++ target⟩

/-- resolveURL from notemanager.go: reject non-http schemes (anything
containing ':' that is neither "http"-prefixed nor protocol-relative),
resolve the rest against the base, return "" on failure. -/
def resolveURL (baseURL : GoURL) (targetURL : Str) : Str :=
  if targetURL.any (· = ':') && !(str "http").isPrefixOf targetURL &&
      !(str "//").isPrefixOf targetURL then []
  else
    match urlResolve baseURL targetURL with
    | none => []
    | some u => urlToString u

/-- Model of Go's path.Ext: the suffix beginning at the final dot in the
final slash-separated element, or "" when there is none. -/
def pathExt (p : Str) : Str :=
  let lastSeg := (p.reverse.takeWhile (· ≠ '/')).reverse
  let extRev := lastSeg.reverse.takeWhile (· ≠ '.')
  if extRev.length = lastSeg.length then []
  else '.' :: extRev.reverse

/-- Model of Go's mime.TypeByExtension builtin table (the entries relevant
to the resource kinds the engine downloads); "" for unknown extensions. -/
def mimeTypeByExtension (ext : Str) : Str :=
  if ext = str ".css" then str "text/css; charset=utf-8"
  else if ext = str ".gif" then str "image/gif"
  else if ext = str ".jpeg" then str "image/jpeg"
  else if ext = str ".jpg" then str "image/jpeg"
  else if ext = str ".png" then str "image/png"
  else if ext = str ".svg" then str "image/svg+xml"
  else if ext = str ".webp" then str "image/webp"
  else []

/-- The standard base64 alphabet. -/
def base64Chars : Str :=
  str "ABCDEFGHIJKLMNOPQRSTUVWXYZabcdefghijklmnopqrstuvwxyz0123456789+/"

def b64c (n : Nat) : Char := base64Chars.getD n '='

/-- base64.StdEncoding.EncodeToString over the body's bytes (characters are
taken mod 256; the bodies considered are byte strings). -/
def base64Encode : Str → Str
  | [] => []
  | [a] =>
    let x := a.toNat % 256
    [b64c (x / 4), b64c (x % 4 * 16), '=', '=']
  | [a, b] =>
    let x := a.toNat % 256
    let y := b.toNat % 256
    [b64c (x / 4), b64c (x % 4 * 16 + y / 16), b64c (y % 16 * 4), '=']
  | a :: b :: c :: rest =>
    let x := a.toNat % 256
    let y := b.toNat % 256
    let z := c.toNat % 256
    [b64c (x / 4), b64c (x % 4 * 16 + y / 16), b64c (y % 16 * 4 + z / 64), b64c (z % 64)] ++
      base64Encode rest

/-- An HTTP response: status code, Content-Type header, body. -/
structure HTTPResponse where
  status : Nat
  contentType : Str
  body : Str
deriving DecidableEq

/-- The network oracle: http.Get.  none models a transport error.
The source calls http.Get with the default client, which carries no
timeout, so the oracle has no time component. -/
abbrev Fetch := Str → Option HTTPResponse

/-- downloadResource from notemanager.go: GET, require status 200, read
the body through io.LimitReader with the 5 MB cap; "" on any failure. -/
def downloadResource (fetch : Fetch) (resourceURL : Str) : Str :=
  match fetch resourceURL with
  | none => []
  | some resp =>
    if resp.status ≠ 200 then []
    else resp.body.take (5 * 1024 * 1024)

/-- The Content-Type used by downloadAndEncodeImage: the response header,
else the mime table keyed by the lowercased URL extension, else
application/octet-stream. -/
def imageContentType (resp : HTTPResponse) (imageURL : Str) : Str :=
  if resp.contentType ≠ [] then resp.contentType
  else
    let ct := mimeTypeByExtension (toLowerStr (pathExt imageURL))
    if ct ≠ [] then ct else str "application/octet-stream"

/-- downloadAndEncodeImage from notemanager.go: GET, require status 200,
read the body through io.LimitReader with the 1 MB cap, base64-encode into
a data URI; "" on any failure. -/
def downloadAndEncodeImage (fetch : Fetch) (imageURL : Str) : Str :=
  match fetch imageURL with
  | none => []
  | some resp =>
    if resp.status ≠ 200 then []
    else
      let contentType := imageContentType resp imageURL
      let imageData := resp.body.take (1 * 1024 * 1024)
      str "data:" ++ contentType ++ str ";base64," ++ base64Encode imageData

/-!
The archiving engine (notemanager.go).  processCSS has no depth parameter
in the source, so its recursion through @import callbacks is unbounded.
Here the Nat fuel indexes that recursion depth for termination: at fuel 0
the text is returned unchanged, so the fuel-n value equals the Go
function's result whenever the import chain actually reached is shorter
than n.
-/

/-- The isImage test of processCSS's url() callback, on the lowercased
extension of the raw reference. -/
def cssIsImage (ext : Str) : Bool :=
  ext = str ".png" || ext = str ".jpg" || ext = str ".jpeg" || ext = str ".gif" ||
  ext = str ".svg" || ext = str ".webp"

/-- The isFont test of processCSS's url() callback. -/
def cssIsFont (ext : Str) : Bool :=
  ext = str ".woff" || ext = str ".woff2" || ext = str ".ttf" || ext = str ".otf" ||
  ext = str ".eot"

/-- The url() callback of processCSS: skip data: URIs, resolve, and only
for image/font extensions download and substitute a base64 data URI. -/
def cssUrlCallback (fetch : Fetch) (cssBaseURL : GoURL) (m : Str) : Str :=
  match urlMatGroup m with
  | none => m
  | some resourceURL =>
    if (str "data:").isPrefixOf resourceURL then m
    else
      let resolvedURL := resolveURL cssBaseURL resourceURL
      if resolvedURL = [] then m
      else
        let ext := toLowerStr (pathExt resourceURL)
        if cssIsImage ext || cssIsFont ext then
          let dataURI := downloadAndEncodeImage fetch resolvedURL
          if dataURI ≠ [] then str "url(" ++ str "\"" ++ dataURI ++ str "\"" ++ str ")"
          else m
        else m

/-- The @import callback of processCSS, with the recursive call abstracted
as recurse (the Go source recurses into processCSS itself). -/
def importCallback (recurse : Str → Str → Str) (fetch : Fetch) (cssBaseURL : GoURL)
    (m : Str) : Str :=
  match importGroup m with
  | none => m
  | some g =>
    let importURL := resolveURL cssBaseURL g
    if importURL = [] then m
    else
      let importedCSS := downloadResource fetch importURL
      if importedCSS = [] then m
      else str "/* Imported from: " ++ importURL ++ str " */" ++ str "\n" ++
        recurse importedCSS importURL

/-- processCSS from notemanager.go.  The Go function takes only
(cssContent, cssURL) and recurses without any depth bound; fuel makes the
recursion well-founded as described above. -/
def processCSS (fuel : Nat) (fetch : Fetch) (cssContent cssURL : Str) : Str :=
  match fuel with
  | 0 => cssContent
  | fuel + 1 =>
    match urlParseAbs cssURL with
    | none => cssContent
    | some cssBaseURL =>
      let c1 := replaceAllF importTry
        (importCallback (processCSS fuel fetch) fetch cssBaseURL) cssContent
      replaceAllF urlTry (cssUrlCallback fetch cssBaseURL) c1

/-- The url() callback of processInlineCSS: skip data: URIs, resolve, and
download-and-substitute unconditionally (no extension check, unlike
cssUrlCallback). -/
def cssInlineUrlCallback (fetch : Fetch) (baseURL : GoURL) (m : Str) : Str :=
  match urlMatGroup m with
  | none => m
  | some resourceURL =>
    if (str "data:").isPrefixOf resourceURL then m
    else
      let resolvedURL := resolveURL baseURL resourceURL
      if resolvedURL = [] then m
      else
        let dataURI := downloadAndEncodeImage fetch resolvedURL
        if dataURI ≠ [] then str "url(" ++ str "\"" ++ dataURI ++ str "\"" ++ str ")"
        else m

/-- processInlineCSS from notemanager.go. -/
def processInlineCSS (fetch : Fetch) (cssContent baseURLStr : Str) : Str :=
  match urlParseAbs baseURLStr with
  | none => cssContent
  | some baseURL => replaceAllF urlTry (cssInlineUrlCallback fetch baseURL) cssContent

/-- The <link rel="stylesheet"> callback of inlineCSS. -/
def cssLinkCallback (fuel : Nat) (fetch : Fetch) (baseURL : GoURL) (m : Str) : Str :=
  match hrefFind m with
  | none => m
  | some cssURL =>
    let resolvedURL := resolveURL baseURL cssURL
    if resolvedURL = [] then m
    else
      let cssContent := downloadResource fetch resolvedURL
      if cssContent = [] then m
      else
        let processedCSS := processCSS fuel fetch cssContent resolvedURL
        str "<style type=" ++ str "\"text/css\">" ++ str "\n/* Inlined from: " ++
          resolvedURL ++ str " */\n" ++ processedCSS ++ str "\n</style>"

/-- inlineCSS from notemanager.go. -/
def inlineCSS (fuel : Nat) (fetch : Fetch) (htmlContent : Str) (baseURL : GoURL) : Str :=
  replaceAllF linkTry (cssLinkCallback fuel fetch baseURL) htmlContent

/-- The <script src=...> callback of inlineJavaScript. -/
def scriptCallback (fetch : Fetch) (baseURL : GoURL) (m : Str) : Str :=
  match srcFind m with
  | none => m
  | some jsURL =>
    let resolvedURL := resolveURL baseURL jsURL
    if resolvedURL = [] then m
    else
      let jsContent := downloadResource fetch resolvedURL
      if jsContent = [] then m
      else
        str "<script type=" ++ str "\"text/javascript\">" ++ str "\n/* Inlined from: " ++
          resolvedURL ++ str " */\n" ++ jsContent ++ str "\n</script>"

/-- inlineJavaScript from notemanager.go. -/
def inlineJavaScript (fetch : Fetch) (htmlContent : Str) (baseURL : GoURL) : Str :=
  replaceAllF scriptTry (scriptCallback fetch baseURL) htmlContent

/-- The <img src=...> callback of inlineImages: skip data: URIs, resolve,
download-and-encode, and rewrite every src attribute of the tag. -/
def imgCallback (fetch : Fetch) (baseURL : GoURL) (m : Str) : Str :=
  match srcFind m with
  | none => m
  | some imgURL =>
    if (str "data:").isPrefixOf imgURL then m
    else
      let resolvedURL := resolveURL baseURL imgURL
      if resolvedURL = [] then m
      else
        let dataURI := downloadAndEncodeImage fetch resolvedURL
        if dataURI = [] then m
        else replaceAllF srcTry (fun _ => str "src=" ++ str "\"" ++ dataURI ++ str "\"") m

/-- The quoted-image-path callback of inlineImages' second pass: the match
is quote ++ path ++ quote; the rewritten form reuses the opening quote on
both sides (match[0:1] in the source). -/
def jsImgCallback (fetch : Fetch) (baseURL : GoURL) (m : Str) : Str :=
  let quote := m.take 1
  let imgURL := (m.drop 1).dropLast
  if (str "data:").isPrefixOf imgURL then m
  else
    let resolvedURL := resolveURL baseURL imgURL
    if resolvedURL = [] then m
    else
      let dataURI := downloadAndEncodeImage fetch resolvedURL
      if dataURI = [] then m
      else quote ++ dataURI ++ quote

/-- inlineImages from notemanager.go: the <img> pass followed by the
quoted-image-path pass. -/
def inlineImages (fetch : Fetch) (htmlContent : Str) (baseURL : GoURL) : Str :=
  replaceAllF jsImgTry (jsImgCallback fetch baseURL)
    (replaceAllF imgTry (imgCallback fetch baseURL) htmlContent)

/-- inlineWebFonts from notemanager.go: a no-op (fonts are handled during
CSS processing). -/
def inlineWebFonts (htmlContent : Str) (_baseURL : GoURL) : Str := htmlContent

/-- The style="..." callback of inlineStyleAttributes: re-extract the
attribute content, rewrite it through processInlineCSS, and rebuild the
attribute using the opening quote character (match[6:7]) on both sides. -/
def styleAttrCallback (fetch : Fetch) (baseURL : GoURL) (m : Str) : Str :=
  match (scanFirst styleMat m).map (fun r => r.2) with
  | none => m
  | some styleContent =>
    let quote := (m.drop 6).take 1
    let processedStyle := processInlineCSS fetch styleContent (urlToString baseURL)
    str "style=" ++ quote ++ processedStyle ++ quote

/-- inlineStyleAttributes from notemanager.go. -/
def inlineStyleAttributes (fetch : Fetch) (htmlContent : Str) (baseURL : GoURL) : Str :=
  replaceAllF styleTry (styleAttrCallback fetch baseURL) htmlContent

/-- The provenance banner of inlineAllResources (the raw-string literal of
the source, with its two time.Now() format results supplied as now). -/
def archiveHeader (baseURL now : Str) : Str :=
  str "\n<!-- ARCHIVED PAGE - Original URL: " ++ baseURL ++ str " - Archived: " ++ now ++
    str " -->\n<div style=" ++
    str "\"background: #fff3cd; border: 1px solid #ffeaa7; padding: 10px; margin: 10px 0; border-radius: 4px; font-family: Arial, sans-serif;\">" ++
    str "\n\tðŸ“„ <strong>Archived Page</strong> - Original: <a href=" ++
    str "\"" ++ baseURL ++ str "\" target=" ++ str "\"_blank\">" ++ baseURL ++
    str "</a> - Archived: " ++ now ++ str "\n</div>\n"

/-- The five inlining passes of inlineAllResources, in source order, before
the banner-insertion step. -/
def inlinePasses (fuel : Nat) (fetch : Fetch) (htmlContent : Str) (baseURLParsed : GoURL) :
    Str :=
  let h1 := inlineCSS fuel fetch htmlContent baseURLParsed
  let h2 := inlineJavaScript fetch h1 baseURLParsed
  let h3 := inlineImages fetch h2 baseURLParsed
  let h4 := inlineWebFonts h3 baseURLParsed
  inlineStyleAttributes fetch h4 baseURLParsed

/-- inlineAllResources from notemanager.go: on base-URL parse failure the
original content is returned; otherwise the five passes run and the banner
is spliced after every <body...> match ($1 plus the header). -/
def inlineAllResources (fuel : Nat) (fetch : Fetch) (htmlContent baseURL now : Str) : Str :=
  let hdr := archiveHeader baseURL now
  match urlParseAbs baseURL with
  | none => htmlContent
  | some baseURLParsed =>
    replaceAllF bodyTry (fun m => m ++ hdr) (inlinePasses fuel fetch htmlContent baseURLParsed)

/-- extractTitle from notemanager.go. -/
def extractTitle (htmlContent host : Str) : Str :=
  match scanFirst titleMat htmlContent with
  | some (_, g) => if trimSpace g ≠ [] then trimSpace g else host
  | none => host

/-- sanitizeFilename from notemanager.go: replace each maximal run of
[<>:"/\\|?*\s] by one underscore, truncate to 50, trim underscores. -/
def sanitizeFilename (filename : Str) : Str :=
  let sanitized := replaceAllF invalidRunTry (fun _ => str "_") filename
  let sanitized := if 50 < sanitized.length then sanitized.take 50 else sanitized
  trimUnderscores sanitized

/-- One reading of the clock, under the three time.Format layouts the
engine uses for it. -/
structure Clock where
  file : Str
  display : Str
  minute : Str
deriving DecidableEq

/-- ArchiveInfo from notemanager.go. -/
structure ArchiveInfo where
  title : Str
  filePath : Str
  timestamp : Clock
deriving DecidableEq

/-- archiveWebsite from notemanager.go.  The directory creation and file
write are modelled as succeeding; every other failure path (URL parse,
top-level GET, status) is represented.  Note the status check of the
source is StatusCode != 200. -/
def archiveWebsite (fuel : Nat) (fetch : Fetch) (clock : Clock) (websiteURL : Str) :
    Except Str ArchiveInfo :=
  match urlParseAbs websiteURL with
  | none => .error (str "invalid URL")
  | some parsedURL =>
    match fetch websiteURL with
    | none => .error (str "failed to download webpage")
    | some resp =>
      if resp.status ≠ 200 then .error (str "HTTP error: " ++ (toString resp.status).data)
      else
        let htmlContent := resp.body
        let title := extractTitle htmlContent parsedURL.host
        let filename := clock.file ++ str "_" ++ sanitizeFilename title ++ str "-" ++
          sanitizeFilename parsedURL.host ++ str ".html"
        let _processedHTML := inlineAllResources fuel fetch htmlContent websiteURL clock.display
        let relativePath := str "assets/sites/" ++ filename
        .ok ⟨title, relativePath, clock⟩

/-- The replacement text spliced over a trigger token on success:
[title](path) (archived YYYY-MM-DD HH:MM). -/
def archiveLinkText (info : ArchiveInfo) : Str :=
  str "[" ++ info.title ++ str "](" ++ info.filePath ++ str ") (archived " ++
    info.timestamp.minute ++ str ")"

/-- processArchiveLinks from notemanager.go, with the call to
archiveWebsite abstracted as archive: find all trigger tokens, and for
each, on success replace the first occurrence of the token's text in the
current content (strings.Replace count 1); on failure leave the content
as it is and continue. -/
def processArchiveLinksWith (archive : Str → Except Str ArchiveInfo) (content : Str) : Str :=
  (matchesOf tokenTry content).foldl
    (fun processedContent m =>
      let url := trimPlus m
      match archive url with
      | .error _ => processedContent
      | .ok archiveInfo => replaceFirst processedContent m (archiveLinkText archiveInfo))
    content

/-- processArchiveLinks with the real archiveWebsite. -/
def processArchiveLinks (fuel : Nat) (fetch : Fetch) (clock : Clock) (content : Str) : Str :=
  processArchiveLinksWith (archiveWebsite fuel fetch clock) content

/-!  Generic lemmas about the replacement machinery. -/

theorem replaceAllAux_eq_self (pat : Str → Option Nat) (f : Str → Str) :
    ∀ (fuel : Nat) (s : Str), (∀ m ∈ matchesOfAux pat fuel s, f m = m) →
      replaceAllAux pat f fuel s = s := by
  intro fuel
  induction fuel with
  | zero => intro s _; cases s <;> rfl
  | succ fuel ih =>
    intro s h
    match s with
    | [] => rfl
    | c :: cs =>
      simp only [replaceAllAux]
      cases hp : pat (c :: cs) with
      | none =>
        simp only []
        rw [ih cs]
        intro m hm
        apply h
        simp only [matchesOfAux, hp]
        exact hm
      | some n =>
        by_cases hn : 0 < n
        · simp only [hn, if_true]
          have hmem : (c :: cs).take n ∈ matchesOfAux pat (fuel + 1) (c :: cs) := by
            simp only [matchesOfAux, hp, hn, if_true]
            exact List.mem_cons_self _ _
          rw [h _ hmem, ih ((c :: cs).drop n)]
          · exact List.take_append_drop n (c :: cs)
          · intro m hm
            apply h
            simp only [matchesOfAux, hp, hn, if_true]
            exact List.mem_cons_of_mem _ hm
        · simp only [hn, if_false]
          rw [ih cs]
          intro m hm
          apply h
          simp only [matchesOfAux, hp, hn, if_false]
          exact hm

theorem replaceAllF_eq_self (pat : Str → Option Nat) (f : Str → Str) (s : Str)
    (h : ∀ m ∈ matchesOf pat s, f m = m) : replaceAllF pat f s = s :=
  replaceAllAux_eq_self pat f s.length s h

theorem replaceAllAux_congr (pat : Str → Option Nat) (f g : Str → Str) :
    ∀ (fuel : Nat) (s : Str), (∀ m ∈ matchesOfAux pat fuel s, f m = g m) →
      replaceAllAux pat f fuel s = replaceAllAux pat g fuel s := by
  intro fuel
  induction fuel with
  | zero => intro s _; cases s <;> rfl
  | succ fuel ih =>
    intro s h
    match s with
    | [] => rfl
    | c :: cs =>
      simp only [replaceAllAux]
      cases hp : pat (c :: cs) with
      | none =>
        simp only []
        rw [ih cs]
        intro m hm
        apply h
        simp only [matchesOfAux, hp]
        exact hm
      | some n =>
        by_cases hn : 0 < n
        · simp only [hn, if_true]
          have hmem : (c :: cs).take n ∈ matchesOfAux pat (fuel + 1) (c :: cs) := by
            simp only [matchesOfAux, hp, hn, if_true]
            exact List.mem_cons_self _ _
          rw [h _ hmem, ih ((c :: cs).drop n)]
          intro m hm
          apply h
          simp only [matchesOfAux, hp, hn, if_true]
          exact List.mem_cons_of_mem _ hm
        · simp only [hn, if_false]
          rw [ih cs]
          intro m hm
          apply h
          simp only [matchesOfAux, hp, hn, if_false]
          exact hm

theorem replaceAllF_congr (pat : Str → Option Nat) (f g : Str → Str) (s : Str)
    (h : ∀ m ∈ matchesOf pat s, f m = g m) :
    replaceAllF pat f s = replaceAllF pat g s :=
  replaceAllAux_congr pat f g s.length s h

/-!  Lemmas about sanitizeFilename (claim C5). -/

theorem invalidRunTry_pos {s : Str} {n : Nat} (h : invalidRunTry s = some n) : 0 < n := by
  match s with
  | [] => simp [invalidRunTry] at h
  | c :: cs =>
    simp only [invalidRunTry] at h
    by_cases hc : isInvalidFilenameChar c
    · simp only [hc, if_true, Option.some.injEq] at h
      subst h
      simp [List.takeWhile_cons, hc]
    · simp [hc] at h

theorem invalidRunTry_none_head {c : Char} {cs : Str}
    (h : invalidRunTry (c :: cs) = none) : isInvalidFilenameChar c = false := by
  simp only [invalidRunTry] at h
  by_cases hc : isInvalidFilenameChar c
  · simp [hc] at h
  · simpa using hc

theorem sanitize_replace_chars :
    ∀ (fuel : Nat) (s : Str), s.length ≤ fuel →
      ∀ c ∈ replaceAllAux invalidRunTry (fun _ => str "_") fuel s,
        isInvalidFilenameChar c = false := by
  intro fuel
  induction fuel with
  | zero =>
    intro s hl c hc
    match s with
    | [] => simp [replaceAllAux] at hc
    | _ :: _ => simp at hl
  | succ fuel ih =>
    intro s hl c hc
    match s with
    | [] => simp [replaceAllAux] at hc
    | a :: as =>
      simp only [replaceAllAux] at hc
      cases hp : invalidRunTry (a :: as) with
      | none =>
        rw [hp] at hc
        simp only [List.mem_cons] at hc
        rcases hc with hc | hc
        · subst hc
          exact invalidRunTry_none_head hp
        · exact ih as (by simpa using Nat.le_of_succ_le_succ hl) c hc
      | some n =>
        have hn : 0 < n := invalidRunTry_pos hp
        rw [hp] at hc
        simp only [hn, if_true, List.mem_append] at hc
        rcases hc with hc | hc
        · simp only [str, String.data] at hc
          simp only [List.mem_singleton] at hc
          subst hc
          rfl
        · refine ih ((a :: as).drop n) ?_ c hc
          have : ((a :: as).drop n).length = (a :: as).length - n := List.length_drop n _
          simp only [List.length_cons] at hl this
          omega

theorem head_dropWhile_ne (p : Char → Bool) :
    ∀ (l : Str) (a : Char), (l.dropWhile p).head? = some a → p a = false := by
  intro l
  induction l with
  | nil => intro a h; simp [List.dropWhile] at h
  | cons c cs ih =>
    intro a h
    rw [List.dropWhile_cons] at h
    by_cases hc : p c
    · rw [if_pos hc] at h
      exact ih a h
    · rw [if_neg hc] at h
      simp only [List.head?_cons, Option.some.injEq] at h
      subst h
      simpa using hc

theorem trimUnderscores_head (s : Str) (c : Char)
    (h : (trimUnderscores s).head? = some c) : c ≠ '_' := by
  unfold trimUnderscores at h
  set d := s.dropWhile (· = '_') with hd
  set e := d.reverse.dropWhile (· = '_') with he
  rw [List.head?_reverse] at h
  have hene : e ≠ [] := by
    intro hnil
    rw [hnil] at h
    simp at h
  have hsplit : d.reverse.takeWhile (· = '_') ++ e = d.reverse :=
    List.takeWhile_append_dropWhile _ _
  have hlast : d.reverse.getLast? = e.getLast? := by
    rw [← hsplit]
    exact List.getLast?_append_of_ne_nil _ hene
  rw [← hlast, List.getLast?_reverse] at h
  have := head_dropWhile_ne (· = '_') s c h
  simpa using this

theorem trimUnderscores_getLast (s : Str) (c : Char)
    (h : (trimUnderscores s).getLast? = some c) : c ≠ '_' := by
  unfold trimUnderscores at h
  rw [List.getLast?_reverse] at h
  have := head_dropWhile_ne (· = '_') (s.dropWhile (· = '_')).reverse c h
  simpa using this

theorem trimUnderscores_length_le (s : Str) : (trimUnderscores s).length ≤ s.length := by
  unfold trimUnderscores
  calc ((s.dropWhile (· = '_')).reverse.dropWhile (· = '_')).reverse.length
      = ((s.dropWhile (· = '_')).reverse.dropWhile (· = '_')).length := List.length_reverse _
    _ ≤ (s.dropWhile (· = '_')).reverse.length := (List.dropWhile_sublist _).length_le
    _ = (s.dropWhile (· = '_')).length := List.length_reverse _
    _ ≤ s.length := (List.dropWhile_sublist _).length_le

theorem trimUnderscores_subset (s : Str) (c : Char)
    (h : c ∈ trimUnderscores s) : c ∈ s := by
  unfold trimUnderscores at h
  rw [List.mem_reverse] at h
  have h2 := (List.dropWhile_sublist (l := (s.dropWhile (· = '_')).reverse) (· = '_')).subset h
  rw [List.mem_reverse] at h2
  exact (List.dropWhile_sublist (l := s) (· = '_')).subset h2

/-- The character class [A-Za-z0-9_] named by the specification's sanitize
contract. -/
def isWordChar (c : Char) : Bool :=
  ('A' ≤ c && c ≤ 'Z') || ('a' ≤ c && c ≤ 'z') || ('0' ≤ c && c ≤ '9') || c = '_'

/-- C5 (amended): sanitizeFilename output has length at most 50, never
starts or ends with an underscore, and contains no character of the
replaced class [<>:"/\\|?*\s] — but it is not restricted to [A-Za-z0-9_]:
only that specific class is replaced. -/
theorem sanitizeFilename_shape (s : Str) :
    (sanitizeFilename s).length ≤ 50
    ∧ (∀ c ∈ sanitizeFilename s, isInvalidFilenameChar c = false)
    ∧ (∀ c, (sanitizeFilename s).head? = some c → c ≠ '_')
    ∧ (∀ c, (sanitizeFilename s).getLast? = some c → c ≠ '_') := by
  unfold sanitizeFilename
  set r := replaceAllF invalidRunTry (fun _ => str "_") s with hr
  set t := if 50 < r.length then r.take 50 else r with ht
  have htlen : t.length ≤ 50 := by
    rw [ht]
    by_cases h50 : 50 < r.length
    · rw [if_pos h50, List.length_take]
      omega
    · rw [if_neg h50]
      omega
  have htsub : ∀ c ∈ t, c ∈ r := by
    intro c hc
    rw [ht] at hc
    by_cases h50 : 50 < r.length
    · rw [if_pos h50] at hc
      exact List.mem_of_mem_take hc
    · rwa [if_neg h50] at hc
  refine ⟨le_trans (trimUnderscores_length_le t) htlen, ?_, ?_, ?_⟩
  · intro c hc
    have hcr : c ∈ r := htsub c (trimUnderscores_subset t c hc)
    rw [hr] at hcr
    exact sanitize_replace_chars s.length s (le_refl _) c hcr
  · intro c hc
    exact trimUnderscores_head t c hc
  · intro c hc
    exact trimUnderscores_getLast t c hc

/-- C5 witness: a concrete instance of the amended shape theorem. -/
theorem sanitizeFilename_shape_witness :
    (sanitizeFilename (str "a b")).length ≤ 50
    ∧ (∀ c ∈ sanitizeFilename (str "a b"), isInvalidFilenameChar c = false)
    ∧ (∀ c, (sanitizeFilename (str "a b")).head? = some c → c ≠ '_')
    ∧ (∀ c, (sanitizeFilename (str "a b")).getLast? = some c → c ≠ '_') :=
  sanitizeFilename_shape (str "a b")

/-- C5 counterexample: sanitizeFilename does not restrict its output to
[A-Za-z0-9_]; the input "a.b" is returned verbatim and contains '.'. -/
theorem sanitizeFilename_not_word_chars :
    sanitizeFilename (str "a.b") = str "a.b"
    ∧ '.' ∈ sanitizeFilename (str "a.b")
    ∧ isWordChar '.' = false := by
  refine ⟨rfl, ?_, rfl⟩
  rw [show sanitizeFilename (str "a.b") = str "a.b" from rfl]
  simp [str]

/-- A fixed clock value used by concrete instances. -/
def clockW : Clock :=
  ⟨str "2024_01_01_120000", str "2024-01-01 12:00:00", str "2024-01-01 12:00"⟩

theorem archiveWebsite_isOk_iff (fuel : Nat) (fetch : Fetch) (clock : Clock)
    (url : Str) (resp : HTTPResponse) (pu : GoURL)
    (h1 : urlParseAbs url = some pu) (h2 : fetch url = some resp) :
    (archiveWebsite fuel fetch clock url).isOk = true ↔ resp.status = 200 := by
  unfold archiveWebsite
  rw [h1, h2]
  by_cases hs : resp.status = 200
  · simp [hs, Except.isOk, Except.toBool]
  · simp [hs, Except.isOk, Except.toBool]

/-- C4 (amended): with a parseable URL and a top-level response, the job
passes the status check if and only if the status is exactly 200 (not
200-299). -/
theorem archiveWebsite_status_iff (fuel : Nat) (fetch : Fetch) (clock : Clock)
    (url : Str) (resp : HTTPResponse) (pu : GoURL)
    (h1 : urlParseAbs url = some pu) (h2 : fetch url = some resp) :
    (archiveWebsite fuel fetch clock url).isOk = true ↔ resp.status = 200 :=
  archiveWebsite_isOk_iff fuel fetch clock url resp pu h1 h2

/-- C4 witness: concrete instance of the status-check theorem. -/
theorem archiveWebsite_status_iff_witness :
    (archiveWebsite 1 (fun _ => some ⟨200, [], str "x"⟩) clockW (str "http://h/")).isOk = true
      ↔ (200 : Nat) = 200 :=
  archiveWebsite_status_iff 1 (fun _ => some ⟨200, [], str "x"⟩) clockW (str "http://h/")
    ⟨200, [], str "x"⟩ ⟨str "http", str "h", str "/"⟩ rfl rfl

/-- The oracle returning HTTP 201 Created for every request. -/
def fetch201 : Fetch := fun _ => some ⟨201, [], str "ok"⟩

/-- C4 counterexample: HTTP 201 is in 200-299, yet the job fails outright
with "HTTP error: 201" because the source compares StatusCode != 200. -/
theorem archiveWebsite_201_fails :
    archiveWebsite 1 fetch201 clockW (str "http://h/") = Except.error (str "HTTP error: 201")
    ∧ (archiveWebsite 1 fetch201 clockW (str "http://h/")).isOk = false :=
  ⟨rfl, rfl⟩

/-!  Claim C2: sub-resource failures leave references untouched. -/

theorem downloadResource_fail (fetch : Fetch)
    (hFail : ∀ u r, fetch u = some r → r.status ≠ 200) (u : Str) :
    downloadResource fetch u = [] := by
  unfold downloadResource
  cases hf : fetch u with
  | none => rfl
  | some r => simp [hFail u r hf]

theorem downloadAndEncodeImage_fail (fetch : Fetch)
    (hFail : ∀ u r, fetch u = some r → r.status ≠ 200) (u : Str) :
    downloadAndEncodeImage fetch u = [] := by
  unfold downloadAndEncodeImage
  cases hf : fetch u with
  | none => rfl
  | some r => simp [hFail u r hf]

theorem cssLinkCallback_fail (fuel : Nat) (fetch : Fetch)
    (hFail : ∀ u r, fetch u = some r → r.status ≠ 200) (base : GoURL) (m : Str) :
    cssLinkCallback fuel fetch base m = m := by
  unfold cssLinkCallback
  cases hrefFind m with
  | none => rfl
  | some cssURL =>
    by_cases hres : resolveURL base cssURL = []
    · simp [hres]
    · simp [hres, downloadResource_fail fetch hFail]

theorem scriptCallback_fail (fetch : Fetch)
    (hFail : ∀ u r, fetch u = some r → r.status ≠ 200) (base : GoURL) (m : Str) :
    scriptCallback fetch base m = m := by
  unfold scriptCallback
  cases srcFind m with
  | none => rfl
  | some jsURL =>
    by_cases hres : resolveURL base jsURL = []
    · simp [hres]
    · simp [hres, downloadResource_fail fetch hFail]

theorem imgCallback_fail (fetch : Fetch)
    (hFail : ∀ u r, fetch u = some r → r.status ≠ 200) (base : GoURL) (m : Str) :
    imgCallback fetch base m = m := by
  unfold imgCallback
  cases srcFind m with
  | none => rfl
  | some imgURL =>
    by_cases hdata : (str "data:").isPrefixOf imgURL
    · simp [hdata]
    · by_cases hres : resolveURL base imgURL = []
      · simp [hdata, hres]
      · simp [hdata, hres, downloadAndEncodeImage_fail fetch hFail]

theorem jsImgCallback_fail (fetch : Fetch)
    (hFail : ∀ u r, fetch u = some r → r.status ≠ 200) (base : GoURL) (m : Str) :
    jsImgCallback fetch base m = m := by
  unfold jsImgCallback
  simp only []
  split
  · rfl
  · split
    · rfl
    · simp [downloadAndEncodeImage_fail fetch hFail]

theorem cssUrlCallback_fail (fetch : Fetch)
    (hFail : ∀ u r, fetch u = some r → r.status ≠ 200) (base : GoURL) (m : Str) :
    cssUrlCallback fetch base m = m := by
  unfold cssUrlCallback
  cases urlMatGroup m with
  | none => rfl
  | some resourceURL =>
    by_cases hdata : (str "data:").isPrefixOf resourceURL
    · simp [hdata]
    · by_cases hres : resolveURL base resourceURL = []
      · simp [hdata, hres]
      · simp [hdata, hres, downloadAndEncodeImage_fail fetch hFail]

theorem cssInlineUrlCallback_fail (fetch : Fetch)
    (hFail : ∀ u r, fetch u = some r → r.status ≠ 200) (base : GoURL) (m : Str) :
    cssInlineUrlCallback fetch base m = m := by
  unfold cssInlineUrlCallback
  cases urlMatGroup m with
  | none => rfl
  | some resourceURL =>
    by_cases hdata : (str "data:").isPrefixOf resourceURL
    · simp [hdata]
    · by_cases hres : resolveURL base resourceURL = []
      · simp [hdata, hres]
      · simp [hdata, hres, downloadAndEncodeImage_fail fetch hFail]

theorem importCallback_fail (recurse : Str → Str → Str) (fetch : Fetch)
    (hFail : ∀ u r, fetch u = some r → r.status ≠ 200) (base : GoURL) (m : Str) :
    importCallback recurse fetch base m = m := by
  unfold importCallback
  cases importGroup m with
  | none => rfl
  | some g =>
    by_cases hres : resolveURL base g = []
    · simp [hres]
    · simp [hres, downloadResource_fail fetch hFail]

theorem processCSS_fail (fetch : Fetch)
    (hFail : ∀ u r, fetch u = some r → r.status ≠ 200) (fuel : Nat) (css u : Str) :
    processCSS fuel fetch css u = css := by
  cases fuel with
  | zero => rfl
  | succ fuel =>
    unfold processCSS
    cases urlParseAbs u with
    | none => rfl
    | some base =>
      show replaceAllF urlTry (cssUrlCallback fetch base)
        (replaceAllF importTry (importCallback (processCSS fuel fetch) fetch base) css) = css
      rw [replaceAllF_eq_self importTry (importCallback (processCSS fuel fetch) fetch base) css
        (fun m _ => importCallback_fail (processCSS fuel fetch) fetch hFail base m)]
      exact replaceAllF_eq_self _ _ css (fun m _ => cssUrlCallback_fail fetch hFail base m)

theorem processInlineCSS_fail (fetch : Fetch)
    (hFail : ∀ u r, fetch u = some r → r.status ≠ 200) (css b : Str) :
    processInlineCSS fetch css b = css := by
  unfold processInlineCSS
  cases urlParseAbs b with
  | none => rfl
  | some base =>
    exact replaceAllF_eq_self _ _ css (fun m _ => cssInlineUrlCallback_fail fetch hFail base m)

/-- C2: a sub-resource reference whose resolution or fetch fails keeps its
original textual form - per reference: each callback returns the matched
text unchanged when its own resolution or download fails; globally: when
every sub-resource fetch fails (transport error or non-200 status, e.g.
404) every inlining pass returns its input byte-identical; and the
archive job still completes (only the top-level fetch's status matters). -/
theorem subresourceFailure_leaves_references (fetch : Fetch)
    (hFail : ∀ u r, fetch u = some r → r.status ≠ 200) :
    (∀ fuel html base, inlineCSS fuel fetch html base = html)
    ∧ (∀ html base, inlineJavaScript fetch html base = html)
    ∧ (∀ html base, inlineImages fetch html base = html)
    ∧ (∀ fuel css u, processCSS fuel fetch css u = css)
    ∧ (∀ css b, processInlineCSS fetch css b = css)
    ∧ (∀ (g : Fetch) fuel clock url resp pu, urlParseAbs url = some pu →
        g url = some resp → resp.status = 200 →
        (archiveWebsite fuel g clock url).isOk = true)
    ∧ (∀ (g : Fetch) fuel base m v, hrefFind m = some v →
        (resolveURL base v = [] ∨ downloadResource g (resolveURL base v) = []) →
        cssLinkCallback fuel g base m = m)
    ∧ (∀ (g : Fetch) base m v, srcFind m = some v →
        (resolveURL base v = [] ∨ downloadResource g (resolveURL base v) = []) →
        scriptCallback g base m = m)
    ∧ (∀ (g : Fetch) base m v, srcFind m = some v →
        (resolveURL base v = [] ∨ downloadAndEncodeImage g (resolveURL base v) = []) →
        imgCallback g base m = m)
    ∧ (∀ (g : Fetch) base m v, urlMatGroup m = some v →
        (resolveURL base v = [] ∨ downloadAndEncodeImage g (resolveURL base v) = []) →
        cssUrlCallback g base m = m) := by
  refine ⟨?_, ?_, ?_, processCSS_fail fetch hFail, processInlineCSS_fail fetch hFail,
    ?_, ?_, ?_, ?_, ?_⟩
  · intro fuel html base
    exact replaceAllF_eq_self _ _ html (fun m _ => cssLinkCallback_fail fuel fetch hFail base m)
  · intro html base
    exact replaceAllF_eq_self _ _ html (fun m _ => scriptCallback_fail fetch hFail base m)
  · intro html base
    unfold inlineImages
    rw [replaceAllF_eq_self _ _ html (fun m _ => imgCallback_fail fetch hFail base m)]
    exact replaceAllF_eq_self _ _ html (fun m _ => jsImgCallback_fail fetch hFail base m)
  · intro g fuel clock url resp pu h1 h2 h3
    exact (archiveWebsite_isOk_iff fuel g clock url resp pu h1 h2).mpr h3
  · intro g fuel base m v h1 h2
    unfold cssLinkCallback
    rw [h1]
    rcases h2 with h2 | h2
    · simp [h2]
    · by_cases hres : resolveURL base v = []
      · simp [hres]
      · simp [hres, h2]
  · intro g base m v h1 h2
    unfold scriptCallback
    rw [h1]
    rcases h2 with h2 | h2
    · simp [h2]
    · by_cases hres : resolveURL base v = []
      · simp [hres]
      · simp [hres, h2]
  · intro g base m v h1 h2
    unfold imgCallback
    rw [h1]
    by_cases hdata : (str "data:").isPrefixOf v
    · simp [hdata]
    · rcases h2 with h2 | h2
      · simp [hdata, h2]
      · by_cases hres : resolveURL base v = []
        · simp [hdata, hres]
        · simp [hdata, hres, h2]
  · intro g base m v h1 h2
    unfold cssUrlCallback
    rw [h1]
    by_cases hdata : (str "data:").isPrefixOf v
    · simp [hdata]
    · rcases h2 with h2 | h2
      · simp [hdata, h2]
      · by_cases hres : resolveURL base v = []
        · simp [hdata, hres]
        · simp [hdata, hres, h2]

/-- The oracle on which every request fails with a transport error. -/
def fetchNone : Fetch := fun _ => none

/-- The oracle serving the top-level page with 200 and every sub-resource
with 404. -/
def fetch404Sub : Fetch := fun u =>
  if u = str "http://h/" then some ⟨200, [], str "<html><img src=" ++ str "\"/a.png\"></html>"⟩
  else some ⟨404, [], []⟩

/-- C2 witness: with failing sub-resource fetches a concrete <img> document
is returned byte-identical, and the job with a 200 top-level fetch and 404
sub-resources completes successfully. -/
theorem subresourceFailure_witness :
    inlineImages fetchNone (str "<html><img src=" ++ str "\"/a.png\"></html>")
        ⟨str "http", str "h", str "/"⟩
      = str "<html><img src=" ++ str "\"/a.png\"></html>"
    ∧ (archiveWebsite 1 fetch404Sub clockW (str "http://h/")).isOk = true := by
  have hFail : ∀ u r, fetchNone u = some r → r.status ≠ 200 := by
    intro u r h
    cases h
  refine ⟨(subresourceFailure_leaves_references fetchNone hFail).2.2.1 _ _, ?_⟩
  exact (subresourceFailure_leaves_references fetchNone hFail).2.2.2.2.2.1 fetch404Sub 1 clockW
    (str "http://h/") ⟨200, [], str "<html><img src=" ++ str "\"/a.png\"></html>"⟩
    ⟨str "http", str "h", str "/"⟩ rfl rfl rfl

/-!  Claim C7: data: URIs are left unchanged (idempotence). -/

/-- C7: each inlining callback returns a reference already expressed as a
data: URI unchanged, and a stylesheet whose url() references are all
data: URIs (and which has no @import rule) passes through processCSS
byte-identical. -/
theorem dataURI_idempotent (fetch : Fetch) (base : GoURL) :
    (∀ m v, srcFind m = some v → (str "data:").isPrefixOf v = true →
      imgCallback fetch base m = m)
    ∧ (∀ m, (str "data:").isPrefixOf ((m.drop 1).dropLast) = true →
      jsImgCallback fetch base m = m)
    ∧ (∀ m v, urlMatGroup m = some v → (str "data:").isPrefixOf v = true →
      cssUrlCallback fetch base m = m)
    ∧ (∀ m v, urlMatGroup m = some v → (str "data:").isPrefixOf v = true →
      cssInlineUrlCallback fetch base m = m)
    ∧ (∀ fuel css u, matchesOf importTry css = [] →
      (∀ m ∈ matchesOf urlTry css, ∃ v, urlMatGroup m = some v ∧
        (str "data:").isPrefixOf v = true) →
      processCSS (fuel + 1) fetch css u = css) := by
  have hurl : ∀ m v, urlMatGroup m = some v → (str "data:").isPrefixOf v = true →
      cssUrlCallback fetch base m = m := by
    intro m v h1 h2
    unfold cssUrlCallback
    rw [h1]
    simp [h2]
  refine ⟨?_, ?_, hurl, ?_, ?_⟩
  · intro m v h1 h2
    unfold imgCallback
    rw [h1]
    simp [h2]
  · intro m h2
    unfold jsImgCallback
    simp only []
    split
    · rfl
    · next hq => exact absurd h2 hq
  · intro m v h1 h2
    unfold cssInlineUrlCallback
    rw [h1]
    simp [h2]
  · intro fuel css u h1 h2
    unfold processCSS
    cases hup : urlParseAbs u with
    | none => rfl
    | some b =>
      show replaceAllF urlTry (cssUrlCallback fetch b)
        (replaceAllF importTry (importCallback (processCSS fuel fetch) fetch b) css) = css
      rw [replaceAllF_eq_self importTry _ css (fun m hm => absurd hm (by rw [h1]; simp))]
      apply replaceAllF_eq_self
      intro m hm
      obtain ⟨v, hv1, hv2⟩ := h2 m hm
      unfold cssUrlCallback
      rw [hv1]
      simp [hv2]

/-- C7 witness: a concrete data: image tag, quoted data: literal, and
all-data: stylesheet are left unchanged. -/
theorem dataURI_idempotent_witness :
    imgCallback fetchNone ⟨str "http", str "h", str "/"⟩
        (str "<img src=" ++ str "\"data:image/png;base64,AA==\">")
      = str "<img src=" ++ str "\"data:image/png;base64,AA==\">"
    ∧ processCSS 1 fetchNone (str "url(" ++ str "\"data:image/gif;base64,R0=\"" ++ str ")")
        (str "http://h/s.css")
      = str "url(" ++ str "\"data:image/gif;base64,R0=\"" ++ str ")" := by
  constructor
  · exact (dataURI_idempotent fetchNone ⟨str "http", str "h", str "/"⟩).1
      (str "<img src=" ++ str "\"data:image/png;base64,AA==\">")
      (str "data:image/png;base64,AA==") (by decide) (by decide)
  · exact (dataURI_idempotent fetchNone ⟨str "http", str "h", str "/"⟩).2.2.2.2 0
      (str "url(" ++ str "\"data:image/gif;base64,R0=\"" ++ str ")")
      (str "http://h/s.css") (by decide)
      (by
        intro m hm
        have hms : matchesOf urlTry (str "url(" ++ str "\"data:image/gif;base64,R0=\"" ++ str ")")
            = [str "url(" ++ str "\"data:image/gif;base64,R0=\"" ++ str ")"] := by decide
        rw [hms] at hm
        simp only [List.mem_singleton] at hm
        subst hm
        exact ⟨str "data:image/gif;base64,R0=", by decide, by decide⟩)

/-!  Claims C9 and C6: download size caps. -/

/-- C9: an image response with status 200 whose body exceeds 1 MiB is not
rejected and not skipped: the result is a data URI whose payload encodes
exactly the first 1048576 bytes of the body (silent truncation). -/
theorem oversizedImage_truncated (fetch : Fetch) (u : Str) (resp : HTTPResponse)
    (h1 : fetch u = some resp) (h2 : resp.status = 200)
    (h3 : 1048576 < resp.body.length) :
    downloadAndEncodeImage fetch u =
      str "data:" ++ imageContentType resp u ++ str ";base64," ++
        base64Encode (resp.body.take 1048576)
    ∧ downloadAndEncodeImage fetch u ≠ []
    ∧ (resp.body.take 1048576).length = 1048576 := by
  have heq : downloadAndEncodeImage fetch u =
      str "data:" ++ imageContentType resp u ++ str ";base64," ++
        base64Encode (resp.body.take 1048576) := by
    unfold downloadAndEncodeImage
    rw [h1]
    simp only [h2]
    norm_num
  refine ⟨heq, ?_, ?_⟩
  · rw [heq]
    have h5 : str "data:" ≠ ([] : Str) := by decide
    simp only [List.append_assoc]
    exact List.append_ne_nil_of_left_ne_nil h5 _
  · rw [List.length_take]
    omega

/-- A concrete body one byte past the 1 MiB cap. -/
def bigBody : Str := List.replicate 1048577 'a'

/-- The oracle serving the oversized image body. -/
def bigFetch : Fetch := fun _ => some ⟨200, str "image/png", bigBody⟩

/-- C9 witness: a concrete 1048577-byte body is truncated to 1048576. -/
theorem oversizedImage_truncated_witness :
    1048576 < bigBody.length
    ∧ (downloadAndEncodeImage bigFetch (str "/i.png") =
      str "data:" ++ imageContentType ⟨200, str "image/png", bigBody⟩ (str "/i.png") ++
        str ";base64," ++ base64Encode (bigBody.take 1048576)
      ∧ downloadAndEncodeImage bigFetch (str "/i.png") ≠ []
      ∧ (bigBody.take 1048576).length = 1048576) :=
  ⟨by rw [bigBody, List.length_replicate]; omega,
   oversizedImage_truncated bigFetch (str "/i.png") ⟨200, str "image/png", bigBody⟩ rfl rfl
     (by rw [bigBody, List.length_replicate]; omega)⟩

/-- C6 (the byte-cap half): every sub-resource read is bounded - generic
resources never exceed 5 MB, and the image read buffers exactly the first
1 MB of the body.  The request itself carries no timeout: the source uses
http.Get with the default client. -/
theorem downloadCaps :
    (∀ fetch u, (downloadResource fetch u).length ≤ 5 * 1024 * 1024)
    ∧ (∀ fetch u resp, fetch u = some resp → resp.status = 200 →
        downloadAndEncodeImage fetch u =
          str "data:" ++ imageContentType resp u ++ str ";base64," ++
            base64Encode (resp.body.take (1 * 1024 * 1024))) := by
  constructor
  · intro fetch u
    unfold downloadResource
    cases fetch u with
    | none => simp
    | some r =>
      by_cases hs : r.status = 200
      · simp only [hs]
        simp [List.length_take]
      · simp [hs]
  · intro fetch u resp h1 h2
    unfold downloadAndEncodeImage
    rw [h1]
    simp only [h2]
    norm_num

/-- C6 witness: concrete instances of both caps. -/
theorem downloadCaps_witness :
    (downloadResource (fun _ => some ⟨200, [], str "hello"⟩) (str "/r")).length ≤ 5 * 1024 * 1024
    ∧ downloadAndEncodeImage (fun _ => some ⟨200, str "image/png", str "Man"⟩) (str "/i.png") =
        str "data:" ++ imageContentType ⟨200, str "image/png", str "Man"⟩ (str "/i.png") ++
          str ";base64," ++ base64Encode ((str "Man").take (1 * 1024 * 1024)) :=
  ⟨downloadCaps.1 (fun _ => some ⟨200, [], str "hello"⟩) (str "/r"),
   downloadCaps.2 (fun _ => some ⟨200, str "image/png", str "Man"⟩) (str "/i.png")
     ⟨200, str "image/png", str "Man"⟩ rfl rfl⟩

/-!  Claim C8: style attribute url() rewriting vs stylesheet url() rewriting. -/

/-- C8 (amended): processInlineCSS and processCSS share the pattern, the
data:-skip and the resolution logic, and they agree on fragments without
@import rules in which every url() target is a data: URI or carries an
image/font extension; they differ on other targets (see the
counterexample: processInlineCSS converts any downloadable target). -/
theorem inlineStyle_vs_css_url_rewriting (fetch : Fetch) (fuel : Nat) (css baseStr : Str)
    (h1 : matchesOf importTry css = [])
    (h2 : ∀ m ∈ matchesOf urlTry css, ∀ v, urlMatGroup m = some v →
      (str "data:").isPrefixOf v = true ∨
        (cssIsImage (toLowerStr (pathExt v)) || cssIsFont (toLowerStr (pathExt v))) = true) :
    processInlineCSS fetch css baseStr = processCSS (fuel + 1) fetch css baseStr := by
  unfold processInlineCSS processCSS
  cases hup : urlParseAbs baseStr with
  | none => rfl
  | some b =>
    show replaceAllF urlTry (cssInlineUrlCallback fetch b) css
      = replaceAllF urlTry (cssUrlCallback fetch b)
          (replaceAllF importTry (importCallback (processCSS fuel fetch) fetch b) css)
    rw [replaceAllF_eq_self importTry _ css (fun m hm => absurd hm (by rw [h1]; simp))]
    apply replaceAllF_congr
    intro m hm
    unfold cssInlineUrlCallback cssUrlCallback
    cases hg : urlMatGroup m with
    | none => rfl
    | some v =>
      simp only []
      by_cases hd2 : (str "data:").isPrefixOf v = true
      · rw [if_pos hd2, if_pos hd2]
      · rw [if_neg hd2, if_neg hd2]
        by_cases hres : resolveURL b v = []
        · rw [if_pos hres, if_pos hres]
        · rw [if_neg hres, if_neg hres]
          rcases h2 m hm v hg with hd | hmedia
          · exact absurd hd hd2
          · rw [if_pos hmedia]

/-- The oracle serving a small binary resource without media extension. -/
def c8Fetch : Fetch := fun u =>
  if u = str "http://h/a.bin" then some ⟨200, str "application/octet-stream", str "X"⟩
  else none

/-- C8 witness: on a fragment whose only url() target is an image
extension, the two rewriters coincide. -/
theorem inlineStyle_vs_css_url_rewriting_witness :
    processInlineCSS c8Fetch (str "url(/i.png)") (str "http://h/x.html")
      = processCSS 1 c8Fetch (str "url(/i.png)") (str "http://h/x.html") :=
  inlineStyle_vs_css_url_rewriting c8Fetch 0 (str "url(/i.png)") (str "http://h/x.html")
    (by decide)
    (by
      intro m hm v hv
      have hms : matchesOf urlTry (str "url(/i.png)") = [str "url(/i.png)"] := by decide
      rw [hms] at hm
      simp only [List.mem_singleton] at hm
      subst hm
      have : v = str "/i.png" := by
        have h0 : urlMatGroup (str "url(/i.png)") = some (str "/i.png") := by decide
        rw [h0] at hv
        exact Option.some_injective _ hv.symm
      subst this
      right
      decide)

/-- C8 counterexample: on url(/a.bin) - resolvable and downloadable but
with neither an image nor a font extension - the style-attribute rewriter
substitutes a data URI while the stylesheet rewriter leaves the reference
unresolved, so the two are not the same function. -/
theorem inlineStyle_vs_css_differ :
    processInlineCSS c8Fetch (str "url(/a.bin)") (str "http://h/x.html")
      ≠ processCSS 1 c8Fetch (str "url(/a.bin)") (str "http://h/x.html") := by
  decide

/-!  Claim C1: the CSS @import recursion has no depth cap in the source. -/

/-- A 7-level acyclic import chain. -/
def chainFetch : Fetch := fun u =>
  if u = str "http://h/c1.css" then some ⟨200, [], str "@import \"c2.css\";"⟩
  else if u = str "http://h/c2.css" then some ⟨200, [], str "@import \"c3.css\";"⟩
  else if u = str "http://h/c3.css" then some ⟨200, [], str "@import \"c4.css\";"⟩
  else if u = str "http://h/c4.css" then some ⟨200, [], str "@import \"c5.css\";"⟩
  else if u = str "http://h/c5.css" then some ⟨200, [], str "@import \"c6.css\";"⟩
  else if u = str "http://h/c6.css" then some ⟨200, [], str "body\x7bcolor:red\x7d"⟩
  else none

/-- The two stylesheets of a cyclic import graph. -/
def aBody : Str := str "@import \"b.css\";"

def bBody : Str := str "@import \"a.css\";"

def aURL : Str := str "http://h/a.css"

def bURL : Str := str "http://h/b.css"

def baseA : GoURL := ⟨str "http", str "h", str "/a.css"⟩

def baseB : GoURL := ⟨str "http", str "h", str "/b.css"⟩

def cycFetch : Fetch := fun u =>
  if u = str "http://h/a.css" then some ⟨200, [], aBody⟩
  else if u = str "http://h/b.css" then some ⟨200, [], bBody⟩
  else none

def commentA : Str := str "/* Imported from: http://h/a.css */" ++ str "\n"

def commentB : Str := str "/* Imported from: http://h/b.css */" ++ str "\n"

theorem urlTry_none_of_head {c : Char} (cs : Str) (h : c ≠ 'u') :
    urlTry (c :: cs) = none := by
  unfold urlTry urlMat
  have hu : ('u' == c) = false := beq_eq_false_iff_ne.mpr (fun he => h he.symm)
  have hp : (str "url(").isPrefixOf (c :: cs) = false := by
    show (('u' :: ('r' :: ('l' :: ('(' :: [])))).isPrefixOf (c :: cs)) = false
    simp [List.isPrefixOf, hu]
  simp [hp]

theorem urlPass_id_of_no_u (g : Str → Str) :
    ∀ (fuel : Nat) (s : Str), (∀ c ∈ s, c ≠ 'u') → replaceAllAux urlTry g fuel s = s := by
  intro fuel
  induction fuel with
  | zero => intro s _; cases s <;> rfl
  | succ fuel ih =>
    intro s h
    match s with
    | [] => rfl
    | c :: cs =>
      have hc : c ≠ 'u' := h c (List.mem_cons_self _ _)
      simp only [replaceAllAux, urlTry_none_of_head cs hc]
      rw [ih cs (fun x hx => h x (List.mem_cons_of_mem _ hx))]

theorem processCSS_cyc_invariant :
    ∀ n : Nat,
      ('@' ∈ processCSS n cycFetch aBody aURL
        ∧ ∀ c ∈ processCSS n cycFetch aBody aURL, c ≠ 'u')
      ∧ ('@' ∈ processCSS n cycFetch bBody bURL
        ∧ ∀ c ∈ processCSS n cycFetch bBody bURL, c ≠ 'u') := by
  intro n
  induction n with
  | zero => exact ⟨⟨by decide, by decide⟩, by decide, by decide⟩
  | succ n ih =>
    obtain ⟨⟨ha1, ha2⟩, hb1, hb2⟩ := ih
    have hstepa : processCSS (n + 1) cycFetch aBody aURL
        = replaceAllF urlTry (cssUrlCallback cycFetch baseA)
            ((commentB ++ processCSS n cycFetch bBody bURL) ++ []) := rfl
    have hstepb : processCSS (n + 1) cycFetch bBody bURL
        = replaceAllF urlTry (cssUrlCallback cycFetch baseB)
            ((commentA ++ processCSS n cycFetch aBody aURL) ++ []) := rfl
    have hKa : ∀ c ∈ (commentB ++ processCSS n cycFetch bBody bURL) ++ ([] : Str), c ≠ 'u' := by
      intro c hc
      rw [List.append_nil, List.mem_append] at hc
      rcases hc with hc | hc
      · exact (by decide : ∀ c ∈ commentB, c ≠ 'u') c hc
      · exact hb2 c hc
    have hKb : ∀ c ∈ (commentA ++ processCSS n cycFetch aBody aURL) ++ ([] : Str), c ≠ 'u' := by
      intro c hc
      rw [List.append_nil, List.mem_append] at hc
      rcases hc with hc | hc
      · exact (by decide : ∀ c ∈ commentA, c ≠ 'u') c hc
      · exact ha2 c hc
    have hea : processCSS (n + 1) cycFetch aBody aURL
        = (commentB ++ processCSS n cycFetch bBody bURL) ++ [] := by
      rw [hstepa]
      exact urlPass_id_of_no_u _ _ _ hKa
    have heb : processCSS (n + 1) cycFetch bBody bURL
        = (commentA ++ processCSS n cycFetch aBody aURL) ++ [] := by
      rw [hstepb]
      exact urlPass_id_of_no_u _ _ _ hKb
    refine ⟨⟨?_, ?_⟩, ?_, ?_⟩
    · rw [hea, List.append_nil, List.mem_append]
      right
      exact hb1
    · intro c hc
      rw [hea] at hc
      exact hKa c hc
    · rw [heb, List.append_nil, List.mem_append]
      right
      exact ha1
    · intro c hc
      rw [heb] at hc
      exact hKb c hc

set_option maxRecDepth 100000 in
/-- C1: processCSS has no depth parameter, so expansion does not stop at
depth 5: a 7-level import chain is fully expanded (no @import rule remains
and the innermost body text appears in the output), and on a cyclic import
graph every finite recursion depth still leaves an unexpanded @import rule
(the rule marker never disappears), i.e. the unbounded Go recursion never
settles. -/
theorem processCSS_no_depth_cap :
    containsSub (processCSS 10 chainFetch (str "@import \"c1.css\";") (str "http://h/c0.css"))
        (str "@import") = false
    ∧ containsSub (processCSS 10 chainFetch (str "@import \"c1.css\";") (str "http://h/c0.css"))
        (str "body\x7bcolor:red\x7d") = true
    ∧ (∀ n : Nat, '@' ∈ processCSS n cycFetch aBody aURL) :=
  ⟨by decide, by decide, fun n => (processCSS_cyc_invariant n).1.1⟩

/-!  Claim C3: the trigger-token substitution contract. -/

theorem isPrefixOf_self : ∀ (l : Str), l.isPrefixOf l = true := by
  intro l
  induction l with
  | nil => rfl
  | cons c cs ih => simp [List.isPrefixOf, ih]

theorem replaceFirst_self (s new : Str) : s ≠ [] → replaceFirst s s new = new := by
  match s with
  | [] => intro h; exact absurd rfl h
  | c :: cs =>
    intro _
    unfold replaceFirst
    rw [if_pos (isPrefixOf_self (c :: cs))]
    rw [List.drop_length]
    exact List.append_nil new

/-- C3 (amended): when every token's archive job fails, the content is
returned byte-identical (each token untouched); when the content's single
token archives successfully, exactly that token is replaced by
[title](path) (archived ts).  In general, success replaces the first
occurrence of the token's text in the current content, which can lie
inside an earlier replacement (see the counterexample). -/
theorem processArchiveLinks_contract :
    (∀ (archive : Str → Except Str ArchiveInfo) (content : Str),
      (∀ m ∈ matchesOf tokenTry content, ∃ e, archive (trimPlus m) = .error e) →
      processArchiveLinksWith archive content = content)
    ∧ (∀ (archive : Str → Except Str ArchiveInfo) (info : ArchiveInfo),
      archive (str "http://h/a") = .ok info →
      processArchiveLinksWith archive (str "+http://h/a") = archiveLinkText info) := by
  constructor
  · intro archive content h
    unfold processArchiveLinksWith
    generalize hL : matchesOf tokenTry content = L
    rw [hL] at h
    clear hL
    induction L generalizing content with
    | nil => rfl
    | cons m L ih =>
      simp only [List.foldl]
      obtain ⟨e, he⟩ := h m (List.mem_cons_self _ _)
      rw [he]
      exact ih content (fun x hx => h x (List.mem_cons_of_mem _ hx))
  · intro archive info h
    unfold processArchiveLinksWith
    have hm : matchesOf tokenTry (str "+http://h/a") = [str "+http://h/a"] := by decide
    rw [hm]
    simp only [List.foldl]
    have ht : trimPlus (str "+http://h/a") = str "http://h/a" := by decide
    rw [ht, h]
    exact replaceFirst_self _ _ (by decide)

/-- C3 witness: concrete failing and succeeding instances of the
substitution contract. -/
theorem processArchiveLinks_contract_witness :
    processArchiveLinksWith (fun _ => .error (str "boom")) (str "a +http://h/a b")
      = str "a +http://h/a b"
    ∧ processArchiveLinksWith (fun _ => .ok ⟨str "T", str "p.html", clockW⟩)
        (str "+http://h/a")
      = archiveLinkText ⟨str "T", str "p.html", clockW⟩ :=
  ⟨processArchiveLinks_contract.1 (fun _ => .error (str "boom")) (str "a +http://h/a b")
      (fun _ _ => ⟨str "boom", rfl⟩),
   processArchiveLinks_contract.2 (fun _ => .ok ⟨str "T", str "p.html", clockW⟩)
      ⟨str "T", str "p.html", clockW⟩ rfl⟩

/-- The network for the token-substitution counterexample: page a's title
is the literal text of the second trigger token. -/
def c3Fetch : Fetch := fun u =>
  if u = str "http://h/a" then some ⟨200, [], str "<title>+http://h/b</title>"⟩
  else if u = str "http://h/b" then some ⟨200, [], str "<title>B</title>"⟩
  else none

set_option maxRecDepth 100000 in
/-- C3 counterexample: in "+http://h/a +http://h/b" the second token's
archive job succeeds with title "B" (first conjunct), so under the claim
that token would be replaced and the output would end with its
replacement "[B](...) (archived 2024-01-01 12:00)".  Instead (second
conjunct, the exact output) strings.Replace(_, match, link, 1) spliced
that replacement over the first occurrence of "+http://h/b" - inside the
first token's replacement, whose title was that very text - so the
output still ends with the byte-identical unreplaced trigger token
(third conjunct) and not with its replacement (fourth conjunct): a token
whose job succeeded was not replaced, and other content was changed. -/
theorem processArchiveLinks_token_survives_success :
    archiveWebsite 1 c3Fetch clockW (str "http://h/b")
      = .ok ⟨str "B", str "assets/sites/2024_01_01_120000_B-h.html", clockW⟩
    ∧ processArchiveLinks 1 c3Fetch clockW (str "+http://h/a +http://h/b")
      = str "[[B](assets/sites/2024_01_01_120000_B-h.html) (archived 2024-01-01 12:00)](assets/sites/2024_01_01_120000_+http_h_b-h.html) (archived 2024-01-01 12:00) +http://h/b"
    ∧ (str " +http://h/b").isSuffixOf
        (processArchiveLinks 1 c3Fetch clockW (str "+http://h/a +http://h/b")) = true
    ∧ (archiveLinkText
          ⟨str "B", str "assets/sites/2024_01_01_120000_B-h.html", clockW⟩).isSuffixOf
        (processArchiveLinks 1 c3Fetch clockW (str "+http://h/a +http://h/b")) = false :=
  ⟨rfl, by decide, by decide, by decide⟩

/-!  Claim C10: banner insertion and the <body> tag. -/

/-- The number of (possibly overlapping) occurrences of sub in s. -/
def countSub : Str → Str → Nat
  | [], _ => 0
  | c :: cs, sub => (if sub.isPrefixOf (c :: cs) then 1 else 0) + countSub cs sub

set_option maxRecDepth 100000 in
/-- C10 (amended): the banner step inserts the provenance banner after
every <body...> match of the document as it stands after the five
inlining passes - in the concrete two-body document below the banner
appears twice and not at all in the input - and when that processed
document contains no <body...> match, no banner is inserted at all (the
output is exactly the processed document).  The original claim's
"input contains no <body> tag" version fails because fetched
sub-resources can introduce a body tag (see the counterexample). -/
theorem banner_insertion (fuel : Nat) (fetch : Fetch) (html baseURL now : Str) (b : GoURL)
    (h1 : urlParseAbs baseURL = some b)
    (h2 : matchesOf bodyTry (inlinePasses fuel fetch html b) = []) :
    inlineAllResources fuel fetch html baseURL now = inlinePasses fuel fetch html b
    ∧ countSub
        (inlineAllResources 1 fetchNone (str "<body>A</body><body class=" ++ str "\"x\">B")
          (str "http://h/") (str "NOW"))
        (str "<!-- ARCHIVED PAGE") = 2
    ∧ countSub (str "<body>A</body><body class=" ++ str "\"x\">B")
        (str "<!-- ARCHIVED PAGE") = 0 := by
  refine ⟨?_, by decide, by decide⟩
  unfold inlineAllResources
  rw [h1]
  exact replaceAllF_eq_self _ _ _ (fun m hm => absurd hm (by rw [h2]; simp))

/-- C10 witness: with a body-less document and no reachable resources the
archive output is the processed document itself, with no banner. -/
theorem banner_insertion_witness :
    inlineAllResources 1 fetchNone (str "<p>x</p>") (str "http://h/") (str "NOW")
      = inlinePasses 1 fetchNone (str "<p>x</p>") ⟨str "http", str "h", str "/"⟩
    ∧ countSub
        (inlineAllResources 1 fetchNone (str "<body>A</body><body class=" ++ str "\"x\">B")
          (str "http://h/") (str "NOW"))
        (str "<!-- ARCHIVED PAGE") = 2
    ∧ countSub (str "<body>A</body><body class=" ++ str "\"x\">B")
        (str "<!-- ARCHIVED PAGE") = 0 :=
  banner_insertion 1 fetchNone (str "<p>x</p>") (str "http://h/") (str "NOW")
    ⟨str "http", str "h", str "/"⟩ (by decide) (by decide)

/-- The network of the banner counterexample: the linked stylesheet's text
contains a <body> tag. -/
def c10Fetch : Fetch := fun u =>
  if u = str "http://h/s.css" then some ⟨200, [], str "<body>x"⟩ else none

/-- The banner counterexample document: it contains no <body> tag. -/
def c10Html : Str := str "<link rel=" ++ str "\"stylesheet\" href=" ++ str "\"/s.css\">"

set_option maxRecDepth 100000 in
/-- C10 counterexample: the input document contains no <body> tag, yet the
archived output carries a provenance banner - the inlined stylesheet text
introduced a <body> tag and the banner step runs on the processed
document. -/
theorem banner_appears_without_body_in_input :
    containsSub c10Html (str "<body") = false
    ∧ containsSub (inlineAllResources 1 c10Fetch c10Html (str "http://h/") (str "NOW"))
        (str "<!-- ARCHIVED PAGE") = true :=
  ⟨by decide, by decide⟩
